import Mathlib

/-!
Verification development for the `datev-lohn-extract` repository.

The definitions below are a shallow embedding of the TypeScript sources:

* `ExtractedPage`, `DateInfo`, `PersonnelGroup`, `CompanyGroup` mirror
  `packages/datev-lohn-extract-core/src/types.ts` (the discriminated union of
  page variants is flattened into one record; fields a variant does not carry
  are `none`).
* `groupByPersonnel` mirrors `PageGrouper.groupByPersonnel` in
  `packages/datev-lohn-extract-core/src/grouping/page-grouper.ts`.
* JavaScript string truthiness (`if (s)` for `string | null`) is modelled by
  `jsTruthy`; `a || b` on nullable strings is modelled by `jsOrOpt`.
-/

set_option autoImplicit false

/-- JavaScript truthiness of a `string | null` value: `null` and `""` are falsy. -/
def jsTruthy : Option String → Bool
  | none => false
  | some s => !s.isEmpty

/-- JavaScript `a || b` for a nullable string `a` and a string default `b`. -/
def jsOrOpt (a : Option String) (b : String) : String :=
  match a with
  | none => b
  | some s => if s.isEmpty then b else s

/-- One extracted page: the flattened discriminated union
`LOGN17Page | LOMS05Page | UnknownPage` from `types.ts`. -/
structure ExtractedPage where
  formType : String
  pageIndex : Nat
  rawText : String
  personnelNumber : Option String
  employeeName : Option String
  year : Option String
  month : Option String
  brutto : Option String
  netto : Option String
  iban : Option String
  detectedFormCode : Option String
  isFirstPage : Bool
  isCompanyWide : Bool
deriving DecidableEq, Repr, Inhabited

/-- Date information, from `types.ts`. -/
structure DateInfo where
  month : Option String
  year : Option String
deriving DecidableEq, Repr, Inhabited

/-- Group of pages belonging to a single employee, from `types.ts`. -/
structure PersonnelGroup where
  personnelNumber : String
  employeeName : String
  pages : List ExtractedPage
  dateInfo : DateInfo
deriving DecidableEq, Repr, Inhabited

/-- Group of company-wide pages, from `types.ts` (the `formTypes` set is kept
as the first-occurrence deduplicated list, matching JS `Set` iteration order). -/
structure CompanyGroup where
  pages : List ExtractedPage
  formTypes : List String
  dateInfo : Option DateInfo
deriving DecidableEq, Repr, Inhabited

/-- Result of the grouping operation, from `page-grouper.ts`. -/
structure PageGrouperResult where
  personnelGroups : List PersonnelGroup
  companyGroups : List CompanyGroup
deriving DecidableEq, Repr, Inhabited

/-- `map.get(k)!.push(x)` after `if (!map.has(k)) map.set(k, [])` on a JS `Map`
represented as an insertion-ordered association list. -/
def addToBucket {α : Type} : List (String × List α) → String → α → List (String × List α)
  | [], k, x => [(k, [x])]
  | (k', b) :: rest, k, x =>
    if k' = k then (k', b ++ [x]) :: rest else (k', b) :: addToBucket rest k x

/-- First association-list entry for a key (`map.get(k)` on a JS `Map`). -/
def assocFind {α : Type} : List (String × List α) → String → Option (List α)
  | [], _ => none
  | (k', b) :: rest, k => if k' = k then some b else assocFind rest k

/-- Mutable state of the `for (const page of pages)` loop in `groupByPersonnel`. -/
structure LoopState where
  personnelMap : List (String × List ExtractedPage)
  companyPages : List ExtractedPage
  current : Option String
deriving DecidableEq, Repr

/-- One iteration of the page-routing loop in `groupByPersonnel`
(`page-grouper.ts` lines 36-59). -/
def stepPage (s : LoopState) (p : ExtractedPage) : LoopState :=
  if p.isCompanyWide then
    { s with companyPages := s.companyPages ++ [p] }
  else
    let cur : Option String :=
      if jsTruthy p.personnelNumber then p.personnelNumber else s.current
    if jsTruthy cur then
      { personnelMap := addToBucket s.personnelMap (cur.getD "") p
        companyPages := s.companyPages
        current := cur }
    else
      { personnelMap := s.personnelMap
        companyPages := s.companyPages ++ [p]
        current := cur }

/-- The whole routing loop of `groupByPersonnel`. -/
def runLoop (pages : List ExtractedPage) : LoopState :=
  pages.foldl stepPage { personnelMap := [], companyPages := [], current := none }

/-- Materialization of one `PersonnelGroup` from a map entry
(`page-grouper.ts` lines 62-76). -/
def mkPersonnelGroup (k : String) (groupPages : List ExtractedPage) : PersonnelGroup :=
  let firstPage := groupPages.headD default
  { personnelNumber := k
    employeeName := jsOrOpt firstPage.employeeName ("Unknown")
    pages := groupPages
    dateInfo := { month := firstPage.month, year := firstPage.year } }

/-- Inferred `(year, month)` for undated company pages
(`page-grouper.ts` lines 78-99). -/
def computeInferredDate (gs : List PersonnelGroup) : Option (String × String) :=
  match gs with
  | [] => none
  | g0 :: _ =>
    let allSame := gs.all (fun g =>
      (g.dateInfo.year == g0.dateInfo.year) && (g.dateInfo.month == g0.dateInfo.month))
    if allSame && jsTruthy g0.dateInfo.year && jsTruthy g0.dateInfo.month then
      match g0.dateInfo.year, g0.dateInfo.month with
      | some y, some mo => some (y, mo)
      | _, _ => none
    else none

/-- Bucket key for a company page (`page-grouper.ts` lines 103-114):
explicit `year-month`, else the inferred period's key, else `no-date`. -/
def monthKey (inferred : Option (String × String)) (p : ExtractedPage) : String :=
  if jsTruthy p.year && jsTruthy p.month then
    p.year.getD ("") ++ "-" ++ p.month.getD ("")
  else
    match inferred with
    | some (y, m) => y ++ "-" ++ m
    | none => "no-date"

/-- Materialization of one `CompanyGroup` from a company-map entry
(`page-grouper.ts` lines 122-144). -/
def mkCompanyGroup (inferred : Option (String × String)) (key : String)
    (pages : List ExtractedPage) : CompanyGroup :=
  let dateInfo : Option DateInfo :=
    if key = "no-date" then none
    else
      match pages.find? (fun p => jsTruthy p.year && jsTruthy p.month) with
      | some p =>
        if jsTruthy p.year && jsTruthy p.month then
          some { month := p.month, year := p.year }
        else
          match inferred with
          | some (y, m) => some { month := some m, year := some y }
          | none => none
      | none =>
        match inferred with
        | some (y, m) => some { month := some m, year := some y }
        | none => none
  { pages := pages
    formTypes := (pages.map (fun p => p.formType)).eraseDups
    dateInfo := dateInfo }

/-- `PageGrouper.groupByPersonnel` from `page-grouper.ts`. -/
def groupByPersonnel (pages : List ExtractedPage) : PageGrouperResult :=
  let st := runLoop pages
  let personnelGroups := st.personnelMap.map (fun e => mkPersonnelGroup e.1 e.2)
  let inferred := computeInferredDate personnelGroups
  let companyMap :=
    st.companyPages.foldl (fun m p => addToBucket m (monthKey inferred p) p) []
  let companyGroups := companyMap.map (fun e => mkCompanyGroup inferred e.1 e.2)
  { personnelGroups := personnelGroups, companyGroups := companyGroups }

/-! ### Characterization of the routing loop -/

/-- The candidate context after the two context statements of the loop body:
`page.personnelNumber` if truthy, otherwise the incoming context. -/
def curOf (c : Option String) (p : ExtractedPage) : Option String :=
  if jsTruthy p.personnelNumber then p.personnelNumber else c

/-- Where one page is routed given the incoming context: `some k` means the
personnel bucket `k`, `none` means the company-pages list. -/
def routeKey (c : Option String) (p : ExtractedPage) : Option String :=
  if p.isCompanyWide then none
  else if jsTruthy (curOf c p) then some ((curOf c p).getD ("")) else none

/-- The context after processing one page. -/
def nextCtx (c : Option String) (p : ExtractedPage) : Option String :=
  if p.isCompanyWide then c else curOf c p

/-- The `(key, page)` pairs routed to personnel buckets, in input order. -/
def routedPairs (c : Option String) : List ExtractedPage → List (String × ExtractedPage)
  | [] => []
  | p :: rest =>
    match routeKey c p with
    | some k => (k, p) :: routedPairs (nextCtx c p) rest
    | none => routedPairs (nextCtx c p) rest

/-- The pages routed to the company-pages list, in input order. -/
def routedCompany (c : Option String) : List ExtractedPage → List ExtractedPage
  | [] => []
  | p :: rest =>
    match routeKey c p with
    | some _ => routedCompany (nextCtx c p) rest
    | none => p :: routedCompany (nextCtx c p) rest

/-- The context after processing a whole list of pages. -/
def lastCtxFrom (c : Option String) : List ExtractedPage → Option String
  | [] => c
  | p :: rest => lastCtxFrom (nextCtx c p) rest

theorem stepPage_eq (s : LoopState) (p : ExtractedPage) :
    stepPage s p =
      { personnelMap :=
          match routeKey s.current p with
          | some k => addToBucket s.personnelMap k p
          | none => s.personnelMap
        companyPages :=
          match routeKey s.current p with
          | some _ => s.companyPages
          | none => s.companyPages ++ [p]
        current := nextCtx s.current p } := by
  by_cases hc : p.isCompanyWide
  · simp [stepPage, routeKey, nextCtx, hc]
  · by_cases ht : jsTruthy (curOf s.current p)
    · simp only [curOf] at ht
      simp [stepPage, routeKey, nextCtx, curOf, hc, ht]
    · simp only [curOf] at ht
      simp [stepPage, routeKey, nextCtx, curOf, hc, ht]

theorem foldl_stepPage_eq (pages : List ExtractedPage) :
    ∀ s : LoopState,
      pages.foldl stepPage s =
        { personnelMap :=
            (routedPairs s.current pages).foldl (fun m e => addToBucket m e.1 e.2)
              s.personnelMap
          companyPages := s.companyPages ++ routedCompany s.current pages
          current := lastCtxFrom s.current pages } := by
  induction pages with
  | nil => intro s; simp [routedPairs, routedCompany, lastCtxFrom]
  | cons p rest ih =>
    intro s
    rw [List.foldl_cons, ih, stepPage_eq]
    cases hr : routeKey s.current p with
    | some k => simp [routedPairs, routedCompany, lastCtxFrom, hr]
    | none => simp [routedPairs, routedCompany, lastCtxFrom, hr]

/-- Association-list grouping of a keyed list, the pure form of both grouping
loops in `groupByPersonnel`. -/
def bucketsOf {α : Type} (xs : List (String × α)) : List (String × List α) :=
  xs.foldl (fun m e => addToBucket m e.1 e.2) []

theorem runLoop_eq (pages : List ExtractedPage) :
    runLoop pages =
      { personnelMap := bucketsOf (routedPairs none pages)
        companyPages := routedCompany none pages
        current := lastCtxFrom none pages } := by
  simp [runLoop, foldl_stepPage_eq, bucketsOf]

/-! ### Generic association-bucket lemmas -/

/-- All values paired with key `k`, in order. -/
def valuesFor {α : Type} (k : String) (xs : List (String × α)) : List α :=
  (xs.filter (fun e => e.1 = k)).map Prod.snd

theorem valuesFor_append_single {α : Type} (k : String) (xs : List (String × α))
    (e : String × α) :
    valuesFor k (xs ++ [e]) = valuesFor k xs ++ (if e.1 = k then [e.2] else []) := by
  by_cases h : e.1 = k <;> simp [valuesFor, List.filter_append, List.filter, h]

theorem assocFind_addToBucket {α : Type} (m : List (String × List α)) (k : String)
    (x : α) (k' : String) :
    assocFind (addToBucket m k x) k' =
      if k' = k then some ((assocFind m k).getD [] ++ [x]) else assocFind m k' := by
  induction m with
  | nil =>
    by_cases h : k' = k
    · subst h; simp [addToBucket, assocFind]
    · have h2 : ¬ k = k' := fun he => h he.symm
      simp [addToBucket, assocFind, h, h2]
  | cons e rest ih =>
    obtain ⟨k0, b⟩ := e
    by_cases h0 : k0 = k
    · subst h0
      by_cases h1 : k' = k0
      · subst h1; simp [addToBucket, assocFind]
      · have h2 : ¬ k0 = k' := fun he => h1 he.symm
        simp [addToBucket, assocFind, h1, h2]
    · by_cases h1 : k0 = k'
      · subst h1
        have h2 : ¬ k0 = k := h0
        have h3 : ¬ k0 = k := h0
        simp [addToBucket, assocFind, h2, fun he : k0 = k => h3 he]
      · simp [addToBucket, assocFind, h0, h1, ih]

theorem bucketsOf_append_single {α : Type} (xs : List (String × α)) (e : String × α) :
    bucketsOf (xs ++ [e]) = addToBucket (bucketsOf xs) e.1 e.2 := by
  simp [bucketsOf, List.foldl_append]

theorem keys_addToBucket {α : Type} (m : List (String × List α)) (k : String) (x : α) :
    (addToBucket m k x).map Prod.fst =
      if k ∈ m.map Prod.fst then m.map Prod.fst else m.map Prod.fst ++ [k] := by
  induction m with
  | nil => simp [addToBucket]
  | cons e rest ih =>
    obtain ⟨k0, b⟩ := e
    by_cases h0 : k0 = k
    · subst h0; simp [addToBucket]
    · have h2 : ¬ k = k0 := fun he => h0 he.symm
      by_cases hm : k ∈ rest.map Prod.fst <;>
        simp [addToBucket, h0, h2, hm, ih]

theorem nodup_keys_addToBucket {α : Type} {m : List (String × List α)} (k : String)
    (x : α) (h : (m.map Prod.fst).Nodup) : ((addToBucket m k x).map Prod.fst).Nodup := by
  rw [keys_addToBucket]
  by_cases hm : k ∈ m.map Prod.fst
  · simpa [hm] using h
  · rw [if_neg hm]
    refine List.Nodup.append h (List.nodup_singleton _) ?_
    simp [List.disjoint_singleton, hm]

theorem nodup_keys_bucketsOf {α : Type} (xs : List (String × α)) :
    ((bucketsOf xs).map Prod.fst).Nodup := by
  induction xs using List.reverseRecOn with
  | nil => simp [bucketsOf]
  | append_singleton xs e ih =>
    rw [bucketsOf_append_single]
    exact nodup_keys_addToBucket _ _ ih

theorem assocFind_bucketsOf {α : Type} [DecidableEq α] (xs : List (String × α)) (k : String) :
    assocFind (bucketsOf xs) k =
      if valuesFor k xs = [] then none else some (valuesFor k xs) := by
  induction xs using List.reverseRecOn with
  | nil => simp [bucketsOf, assocFind, valuesFor]
  | append_singleton xs e ih =>
    rw [bucketsOf_append_single, assocFind_addToBucket, valuesFor_append_single]
    by_cases h : e.1 = k
    · subst h
      rw [if_pos rfl, ih]
      by_cases hv : valuesFor e.1 xs = [] <;> simp [hv]
    · have h2 : ¬ k = e.1 := fun he => h he.symm
      simp [h, h2, ih]

theorem mem_of_assocFind_eq_some {α : Type} {m : List (String × List α)} {k : String}
    {b : List α} (h : assocFind m k = some b) : (k, b) ∈ m := by
  induction m with
  | nil => simp [assocFind] at h
  | cons e rest ih =>
    obtain ⟨k0, b0⟩ := e
    by_cases h0 : k0 = k
    · subst h0
      simp [assocFind] at h
      subst h
      exact List.mem_cons_self _ _
    · simp [assocFind, h0] at h
      exact List.mem_cons_of_mem _ (ih h)

theorem assocFind_eq_some_of_mem {α : Type} {m : List (String × List α)} {k : String}
    {b : List α} (hn : (m.map Prod.fst).Nodup) (h : (k, b) ∈ m) :
    assocFind m k = some b := by
  induction m with
  | nil => simp at h
  | cons e rest ih =>
    obtain ⟨k0, b0⟩ := e
    have hn' : (rest.map Prod.fst).Nodup := (List.nodup_cons.mp (by simpa using hn)).2
    rcases List.mem_cons.mp h with heq | hmem
    · have hk : k = k0 := congrArg Prod.fst heq
      have hb : b = b0 := congrArg Prod.snd heq
      subst hk; subst hb
      simp [assocFind]
    · have hkey : k ∈ rest.map Prod.fst := List.mem_map_of_mem Prod.fst hmem
      have hk0 : ¬ k0 = k := by
        intro hkk; subst hkk
        exact (List.nodup_cons.mp (by simpa using hn)).1 hkey
      simp [assocFind, hk0]
      exact ih hn' hmem

theorem flatten_addToBucket_perm {α : Type} (m : List (String × List α)) (k : String) (x : α) :
    ((addToBucket m k x).map Prod.snd).flatten.Perm ((m.map Prod.snd).flatten ++ [x]) := by
  induction m with
  | nil => simp [addToBucket]
  | cons e rest ih =>
    obtain ⟨k0, b⟩ := e
    by_cases h0 : k0 = k
    · subst h0
      have he : addToBucket ((k0, b) :: rest) k0 x = (k0, b ++ [x]) :: rest := by
        simp [addToBucket]
      rw [he]
      simp only [List.map_cons, List.flatten_cons]
      rw [List.append_assoc, List.append_assoc]
      exact List.Perm.append_left b List.perm_append_comm
    · have he : addToBucket ((k0, b) :: rest) k x = (k0, b) :: addToBucket rest k x := by
        simp [addToBucket, h0]
      rw [he]
      simp only [List.map_cons, List.flatten_cons]
      rw [List.append_assoc]
      exact List.Perm.append_left b ih

theorem flatten_bucketsOf_perm {α : Type} (xs : List (String × α)) :
    ((bucketsOf xs).map Prod.snd).flatten.Perm (xs.map Prod.snd) := by
  induction xs using List.reverseRecOn with
  | nil => simp [bucketsOf]
  | append_singleton xs e ih =>
    rw [bucketsOf_append_single]
    refine (flatten_addToBucket_perm _ _ _).trans ?_
    rw [List.map_append]
    exact ih.append_right _

theorem eq_valuesFor_of_mem_bucketsOf {α : Type} [DecidableEq α] {xs : List (String × α)}
    {k : String} {b : List α} (h : (k, b) ∈ bucketsOf xs) : b = valuesFor k xs := by
  have h1 := assocFind_eq_some_of_mem (nodup_keys_bucketsOf xs) h
  rw [assocFind_bucketsOf] at h1
  by_cases hv : valuesFor k xs = []
  · simp [hv] at h1
  · simp only [if_neg hv] at h1
    exact (Option.some.inj h1).symm

theorem mem_bucketsOf_of_valuesFor_ne {α : Type} [DecidableEq α] {xs : List (String × α)}
    {k : String} (h : valuesFor k xs ≠ []) : (k, valuesFor k xs) ∈ bucketsOf xs := by
  apply mem_of_assocFind_eq_some
  rw [assocFind_bucketsOf]
  simp [h]

theorem mem_valuesFor_of_mem {α : Type} {xs : List (String × α)} {k : String} {x : α}
    (h : (k, x) ∈ xs) : x ∈ valuesFor k xs := by
  simp only [valuesFor, List.mem_map]
  exact ⟨(k, x), List.mem_filter.mpr ⟨h, by simp⟩, rfl⟩

theorem valuesFor_sublist {α : Type} (k : String) (xs : List (String × α)) :
    (valuesFor k xs).Sublist (xs.map Prod.snd) :=
  List.Sublist.map _ (List.filter_sublist xs)

/-! ### Routed-list facts -/

theorem routeKey_none_cases {c : Option String} {p : ExtractedPage}
    (h : routeKey c p = none) :
    p.isCompanyWide = true ∨ jsTruthy p.personnelNumber = false := by
  by_cases hc : p.isCompanyWide
  · exact Or.inl hc
  · right
    by_cases hp : jsTruthy p.personnelNumber
    · exfalso; simp [routeKey, curOf, hc, hp] at h
    · simpa using hp

theorem routedPairs_append (l1 l2 : List ExtractedPage) :
    ∀ c, routedPairs c (l1 ++ l2) =
      routedPairs c l1 ++ routedPairs (lastCtxFrom c l1) l2 := by
  induction l1 with
  | nil => intro c; simp [routedPairs, lastCtxFrom]
  | cons p rest ih =>
    intro c
    cases hr : routeKey c p <;>
      simp [routedPairs, lastCtxFrom, hr, ih]

theorem routedCompany_append (l1 l2 : List ExtractedPage) :
    ∀ c, routedCompany c (l1 ++ l2) =
      routedCompany c l1 ++ routedCompany (lastCtxFrom c l1) l2 := by
  induction l1 with
  | nil => intro c; simp [routedCompany, lastCtxFrom]
  | cons p rest ih =>
    intro c
    cases hr : routeKey c p <;>
      simp [routedCompany, lastCtxFrom, hr, ih]

theorem lastCtxFrom_append (l1 l2 : List ExtractedPage) :
    ∀ c, lastCtxFrom c (l1 ++ l2) = lastCtxFrom (lastCtxFrom c l1) l2 := by
  induction l1 with
  | nil => intro c; simp [lastCtxFrom]
  | cons p rest ih => intro c; simp [lastCtxFrom, ih]

theorem routedPairs_not_companyWide {pages : List ExtractedPage} :
    ∀ {c : Option String} {e : String × ExtractedPage}, e ∈ routedPairs c pages →
      e.2.isCompanyWide = false := by
  induction pages with
  | nil => intro c e h; simp [routedPairs] at h
  | cons p rest ih =>
    intro c e h
    cases hr : routeKey c p with
    | none => rw [routedPairs, hr] at h; exact ih h
    | some k =>
      rw [routedPairs, hr] at h
      rcases List.mem_cons.mp h with heq | hmem
      · subst heq
        by_cases hc : p.isCompanyWide
        · rw [routeKey, if_pos hc] at hr; cases hr
        · simpa using hc
      · exact ih hmem

theorem routedCompany_cases {pages : List ExtractedPage} :
    ∀ {c : Option String} {q : ExtractedPage}, q ∈ routedCompany c pages →
      q.isCompanyWide = true ∨ jsTruthy q.personnelNumber = false := by
  induction pages with
  | nil => intro c q h; simp [routedCompany] at h
  | cons p rest ih =>
    intro c q h
    cases hr : routeKey c p with
    | some k => rw [routedCompany, hr] at h; exact ih h
    | none =>
      rw [routedCompany, hr] at h
      rcases List.mem_cons.mp h with heq | hmem
      · subst heq; exact routeKey_none_cases hr
      · exact ih hmem

theorem companyWide_mem_routedCompany {pages : List ExtractedPage} {q : ExtractedPage}
    (hq : q ∈ pages) (hc : q.isCompanyWide = true) :
    ∀ c, q ∈ routedCompany c pages := by
  induction pages with
  | nil => simp at hq
  | cons p rest ih =>
    intro c
    rcases List.mem_cons.mp hq with heq | hmem
    · subst heq
      have hr : routeKey c q = none := by simp [routeKey, hc]
      rw [routedCompany, hr]
      exact List.mem_cons_self _ _
    · cases hr : routeKey c p with
      | some k => rw [routedCompany, hr]; exact ih hmem _
      | none => rw [routedCompany, hr]; exact List.mem_cons_of_mem _ (ih hmem _)

theorem routedCompany_sublist (pages : List ExtractedPage) :
    ∀ c, (routedCompany c pages).Sublist pages := by
  induction pages with
  | nil => intro c; simp [routedCompany]
  | cons p rest ih =>
    intro c
    cases hr : routeKey c p with
    | some k => rw [routedCompany, hr]; exact (ih _).cons p
    | none => rw [routedCompany, hr]; exact (ih _).cons₂ p

theorem routedPairs_map_snd_sublist (pages : List ExtractedPage) :
    ∀ c, ((routedPairs c pages).map Prod.snd).Sublist pages := by
  induction pages with
  | nil => intro c; simp [routedPairs]
  | cons p rest ih =>
    intro c
    cases hr : routeKey c p with
    | some k => rw [routedPairs, hr]; exact (ih _).cons₂ p
    | none => rw [routedPairs, hr]; exact (ih _).cons p

theorem routed_partition_perm (pages : List ExtractedPage) :
    ∀ c, ((routedPairs c pages).map Prod.snd ++ routedCompany c pages).Perm pages := by
  induction pages with
  | nil => intro c; simp [routedPairs, routedCompany]
  | cons p rest ih =>
    intro c
    cases hr : routeKey c p with
    | some k =>
      rw [routedPairs, routedCompany, hr]
      simpa using (ih (nextCtx c p)).cons p
    | none =>
      rw [routedPairs, routedCompany, hr]
      exact List.perm_middle.trans ((ih (nextCtx c p)).cons p)

theorem lastCtxFrom_nonempty {pages : List ExtractedPage} :
    ∀ {c : Option String}, (∀ s, c = some s → s.isEmpty = false) →
      ∀ k, lastCtxFrom c pages = some k → k.isEmpty = false := by
  induction pages with
  | nil => intro c hc k hk; exact hc k hk
  | cons p rest ih =>
    intro c hc k hk
    rw [lastCtxFrom] at hk
    refine ih ?_ k hk
    intro s hs
    by_cases hcw : p.isCompanyWide
    · rw [nextCtx, if_pos hcw] at hs; exact hc s hs
    · rw [nextCtx, if_neg hcw, curOf] at hs
      by_cases hp : jsTruthy p.personnelNumber
      · rw [if_pos hp] at hs
        rw [hs] at hp
        simpa [jsTruthy] using hp
      · rw [if_neg hp] at hs; exact hc s hs

/-- The most recently established personnel context before a position: the
last truthy personnel number on an earlier non-company-wide page. -/
def lastPersonnel (pre : List ExtractedPage) : Option String :=
  match pre.reverse.find? (fun p => !p.isCompanyWide && jsTruthy p.personnelNumber) with
  | some p => p.personnelNumber
  | none => none

theorem lastPersonnel_append_single (l : List ExtractedPage) (p : ExtractedPage) :
    lastPersonnel (l ++ [p]) =
      if (!p.isCompanyWide && jsTruthy p.personnelNumber) then p.personnelNumber
      else lastPersonnel l := by
  unfold lastPersonnel
  rw [List.reverse_append]
  simp only [List.reverse_singleton, List.singleton_append]
  by_cases hpred : (!p.isCompanyWide && jsTruthy p.personnelNumber) = true
  · simp [List.find?_cons, hpred]
  · have hf : (!p.isCompanyWide && jsTruthy p.personnelNumber) = false := by
      simpa using hpred
    simp [List.find?_cons, hf]

theorem lastCtxFrom_eq_lastPersonnel (pre : List ExtractedPage) :
    lastCtxFrom none pre = lastPersonnel pre := by
  induction pre using List.reverseRecOn with
  | nil => simp [lastCtxFrom, lastPersonnel]
  | append_singleton l p ih =>
    rw [lastCtxFrom_append, lastPersonnel_append_single]
    rw [show ∀ c, lastCtxFrom c [p] = nextCtx c p from fun c => rfl]
    by_cases hc : p.isCompanyWide
    · simp [nextCtx, hc, ih]
    · by_cases hp : jsTruthy p.personnelNumber
      · simp [nextCtx, curOf, hc, hp]
      · simp [nextCtx, curOf, hc, hp, ih]

/-! ### Grouping-level facts -/

theorem groupByPersonnel_personnelGroups (pages : List ExtractedPage) :
    (groupByPersonnel pages).personnelGroups =
      (bucketsOf (routedPairs none pages)).map (fun e => mkPersonnelGroup e.1 e.2) := by
  simp [groupByPersonnel, runLoop_eq]

/-- The inferred period actually used by `groupByPersonnel` on a given input. -/
def inferredDateOf (pages : List ExtractedPage) : Option (String × String) :=
  computeInferredDate ((groupByPersonnel pages).personnelGroups)

theorem groupByPersonnel_companyGroups (pages : List ExtractedPage) :
    (groupByPersonnel pages).companyGroups =
      (bucketsOf ((routedCompany none pages).map
          (fun p => (monthKey (inferredDateOf pages) p, p)))).map
        (fun e => mkCompanyGroup (inferredDateOf pages) e.1 e.2) := by
  simp [groupByPersonnel, inferredDateOf, runLoop_eq, bucketsOf, List.foldl_map]

theorem mem_of_mem_valuesFor {α : Type} {xs : List (String × α)} {k : String} {x : α}
    (h : x ∈ valuesFor k xs) : (k, x) ∈ xs := by
  simp only [valuesFor, List.mem_map] at h
  obtain ⟨e, he, rfl⟩ := h
  obtain ⟨hmem, hpred⟩ := List.mem_filter.mp he
  obtain ⟨k0, x⟩ := e
  have hk : k0 = k := by simpa using hpred
  subst hk
  exact hmem

theorem valuesFor_ne_of_mem_bucketsOf {α : Type} [DecidableEq α] {xs : List (String × α)}
    {k : String} {b : List α} (h : (k, b) ∈ bucketsOf xs) : valuesFor k xs ≠ [] := by
  have h1 := assocFind_eq_some_of_mem (nodup_keys_bucketsOf xs) h
  rw [assocFind_bucketsOf] at h1
  by_cases hv : valuesFor k xs = []
  · simp [hv] at h1
  · exact hv

theorem valuesFor_map_key {α : Type} (f : α → String) (l : List α) (k : String) :
    valuesFor k (l.map (fun x => (f x, x))) = l.filter (fun x => f x = k) := by
  induction l with
  | nil => simp [valuesFor]
  | cons x r ih =>
    by_cases h : f x = k
    · simp only [valuesFor, List.map_cons, List.filter_cons] at *
      simp [h] at *
      exact ih
    · simp only [valuesFor, List.map_cons, List.filter_cons] at *
      simp [h] at *
      exact ih

theorem mem_group_pages_mem_pairs {pages : List ExtractedPage} {g : PersonnelGroup}
    {q : ExtractedPage} (hg : g ∈ (groupByPersonnel pages).personnelGroups)
    (hq : q ∈ g.pages) : (g.personnelNumber, q) ∈ routedPairs none pages := by
  rw [groupByPersonnel_personnelGroups] at hg
  obtain ⟨e, he, hge⟩ := List.mem_map.mp hg
  obtain ⟨k, b⟩ := e
  have hb : b = valuesFor k (routedPairs none pages) := eq_valuesFor_of_mem_bucketsOf he
  subst hge
  simp only [mkPersonnelGroup] at hq ⊢
  rw [hb] at hq
  exact mem_of_mem_valuesFor hq

theorem exists_personnelGroup {pages : List ExtractedPage} {k : String}
    {q : ExtractedPage} (h : (k, q) ∈ routedPairs none pages) :
    ∃ g ∈ (groupByPersonnel pages).personnelGroups,
      g.personnelNumber = k ∧ q ∈ g.pages := by
  have hv : q ∈ valuesFor k (routedPairs none pages) := mem_valuesFor_of_mem h
  have hne : valuesFor k (routedPairs none pages) ≠ [] := by
    intro h0; rw [h0] at hv; simp at hv
  have hmem := mem_bucketsOf_of_valuesFor_ne hne
  refine ⟨mkPersonnelGroup k (valuesFor k (routedPairs none pages)), ?_, rfl, hv⟩
  rw [groupByPersonnel_personnelGroups]
  exact List.mem_map_of_mem _ hmem

theorem companyGroup_structure {pages : List ExtractedPage} {cg : CompanyGroup}
    (hg : cg ∈ (groupByPersonnel pages).companyGroups) :
    ∃ k, cg = mkCompanyGroup (inferredDateOf pages) k
        ((routedCompany none pages).filter
          (fun q => monthKey (inferredDateOf pages) q = k)) ∧
      (routedCompany none pages).filter
        (fun q => monthKey (inferredDateOf pages) q = k) ≠ [] := by
  rw [groupByPersonnel_companyGroups] at hg
  obtain ⟨e, he, hge⟩ := List.mem_map.mp hg
  obtain ⟨k, b⟩ := e
  have hb : b = valuesFor k ((routedCompany none pages).map
      (fun p => (monthKey (inferredDateOf pages) p, p))) :=
    eq_valuesFor_of_mem_bucketsOf he
  have hne := valuesFor_ne_of_mem_bucketsOf he
  rw [valuesFor_map_key] at hb hne
  refine ⟨k, ?_, hne⟩
  rw [← hge, hb]

theorem exists_companyGroup {pages : List ExtractedPage} {q : ExtractedPage}
    (h : q ∈ routedCompany none pages) :
    ∃ cg ∈ (groupByPersonnel pages).companyGroups, q ∈ cg.pages ∧
      cg = mkCompanyGroup (inferredDateOf pages) (monthKey (inferredDateOf pages) q)
        ((routedCompany none pages).filter
          (fun r => monthKey (inferredDateOf pages) r =
            monthKey (inferredDateOf pages) q)) := by
  have hq' : q ∈ (routedCompany none pages).filter
      (fun r => monthKey (inferredDateOf pages) r = monthKey (inferredDateOf pages) q) :=
    List.mem_filter.mpr ⟨h, by simp⟩
  have hvv := valuesFor_map_key (fun p => monthKey (inferredDateOf pages) p)
    (routedCompany none pages) (monthKey (inferredDateOf pages) q)
  have hne : valuesFor (monthKey (inferredDateOf pages) q)
      ((routedCompany none pages).map
        (fun p => (monthKey (inferredDateOf pages) p, p))) ≠ [] := by
    rw [hvv]
    intro h0; rw [h0] at hq'; simp at hq'
  have hmem := mem_bucketsOf_of_valuesFor_ne hne
  refine ⟨mkCompanyGroup (inferredDateOf pages) (monthKey (inferredDateOf pages) q)
    (valuesFor (monthKey (inferredDateOf pages) q)
      ((routedCompany none pages).map
        (fun p => (monthKey (inferredDateOf pages) p, p)))), ?_, ?_, ?_⟩
  · rw [groupByPersonnel_companyGroups]
    exact List.mem_map_of_mem _ hmem
  · show q ∈ valuesFor _ _
    rw [hvv]
    exact hq'
  · rw [hvv]

theorem personnelGroup_structure {pages : List ExtractedPage} {g : PersonnelGroup}
    (hg : g ∈ (groupByPersonnel pages).personnelGroups) :
    ∃ k, g = mkPersonnelGroup k (valuesFor k (routedPairs none pages)) ∧
      valuesFor k (routedPairs none pages) ≠ [] := by
  rw [groupByPersonnel_personnelGroups] at hg
  obtain ⟨e, he, hge⟩ := List.mem_map.mp hg
  obtain ⟨k, b⟩ := e
  have hb : b = valuesFor k (routedPairs none pages) := eq_valuesFor_of_mem_bucketsOf he
  have hne := valuesFor_ne_of_mem_bucketsOf he
  exact ⟨k, by rw [← hge, hb], hne⟩

theorem lastCtxFrom_all_companyWide {mids : List ExtractedPage}
    (h : ∀ q ∈ mids, q.isCompanyWide = true) : ∀ c, lastCtxFrom c mids = c := by
  induction mids with
  | nil => intro c; rfl
  | cons q rest ih =>
    intro c
    rw [lastCtxFrom, nextCtx, if_pos (h q (List.mem_cons_self _ _))]
    exact ih (fun r hr => h r (List.mem_cons_of_mem _ hr)) c

/-- Builder for the minimal concrete pages used in examples. -/
def samplePage (ft : String) (idx : Nat) (pn : Option String) (cw : Bool) : ExtractedPage :=
  { formType := ft, pageIndex := idx, rawText := "", personnelNumber := pn
    employeeName := none, year := none, month := none, brutto := none, netto := none
    iban := none, detectedFormCode := none, isFirstPage := true, isCompanyWide := cw }

def c1page0 : ExtractedPage := samplePage ("LOGN17") 0 (some ("111")) false

def c1page1 : ExtractedPage := samplePage ("LOGN17") 1 none false

def c1page2 : ExtractedPage := samplePage ("LOGN17") 2 (some ("222")) false

/-- C1: for every input sequence, a continuation page (no personnel number,
not company-wide) is appended to the bucket of the most recently established
personnel context (the last truthy personnel number on an earlier
non-company-wide page); if no context exists yet, it is routed to a company
bucket.  Moreover the 3-page document with personnel numbers 111, none, 222
yields exactly the two personnel groups 111 -> pages 0,1 and 222 -> page 2. -/
theorem grouper_routes_continuation_pages :
    (∀ (pre post : List ExtractedPage) (cont : ExtractedPage),
      cont.personnelNumber = none → cont.isCompanyWide = false →
      (∀ k, lastPersonnel pre = some k →
        ∃ g ∈ (groupByPersonnel (pre ++ cont :: post)).personnelGroups,
          g.personnelNumber = k ∧ cont ∈ g.pages) ∧
      (lastPersonnel pre = none →
        ∃ cg ∈ (groupByPersonnel (pre ++ cont :: post)).companyGroups,
          cont ∈ cg.pages)) ∧
    (groupByPersonnel [c1page0, c1page1, c1page2]).personnelGroups.map
        (fun g => (g.personnelNumber, g.pages.map (fun p => p.pageIndex))) =
      [("111", [0, 1]), ("222", [2])] ∧
    (groupByPersonnel [c1page0, c1page1, c1page2]).companyGroups = [] := by
  refine ⟨?_, by decide, by decide⟩
  intro pre post cont hn hc
  constructor
  · intro k hk
    have hctx : lastCtxFrom none pre = some k := by
      rw [lastCtxFrom_eq_lastPersonnel]; exact hk
    have hkne : k.isEmpty = false :=
      lastCtxFrom_nonempty (by intro s hs; cases hs) k hctx
    have hroute : routeKey (some k) cont = some k := by
      simp [routeKey, curOf, hn, hc, jsTruthy, hkne]
    have hmem : (k, cont) ∈ routedPairs none (pre ++ cont :: post) := by
      rw [routedPairs_append, hctx]
      refine List.mem_append_right _ ?_
      rw [routedPairs, hroute]
      exact List.mem_cons_self _ _
    exact exists_personnelGroup hmem
  · intro hk
    have hctx : lastCtxFrom none pre = none := by
      rw [lastCtxFrom_eq_lastPersonnel]; exact hk
    have hroute : routeKey none cont = none := by
      simp [routeKey, curOf, hn, hc, jsTruthy]
    have hmem : cont ∈ routedCompany none (pre ++ cont :: post) := by
      rw [routedCompany_append, hctx]
      refine List.mem_append_right _ ?_
      rw [routedCompany, hroute]
      exact List.mem_cons_self _ _
    obtain ⟨cg, hcg, hqin, _⟩ := exists_companyGroup hmem
    exact ⟨cg, hcg, hqin⟩

theorem grouper_routes_continuation_pages_witness :
    ∃ g ∈ (groupByPersonnel ([c1page0] ++ c1page1 :: [])).personnelGroups,
      g.personnelNumber = "111" ∧ c1page1 ∈ g.pages :=
  (grouper_routes_continuation_pages.1 [c1page0] [] c1page1 rfl rfl).1 "111" (by decide)

def c2page : ExtractedPage := samplePage ("UNKNOWN") 0 none true

/-- C2: every company-wide page of the input is placed in a company bucket and
never in any personnel bucket, regardless of context or personnel-number value. -/
theorem grouper_companyWide_never_personnel :
    ∀ (pages : List ExtractedPage) (page : ExtractedPage), page ∈ pages →
      page.isCompanyWide = true →
      (∃ cg ∈ (groupByPersonnel pages).companyGroups, page ∈ cg.pages) ∧
      (∀ g ∈ (groupByPersonnel pages).personnelGroups, page ∉ g.pages) := by
  intro pages page hmem hcw
  constructor
  · obtain ⟨cg, h1, h2, _⟩ := exists_companyGroup (companyWide_mem_routedCompany hmem hcw none)
    exact ⟨cg, h1, h2⟩
  · intro g hg hq
    have hfalse := routedPairs_not_companyWide (mem_group_pages_mem_pairs hg hq)
    simp [hcw] at hfalse

theorem grouper_companyWide_never_personnel_witness :
    (∃ cg ∈ (groupByPersonnel [c2page]).companyGroups, c2page ∈ cg.pages) ∧
    (∀ g ∈ (groupByPersonnel [c2page]).personnelGroups, c2page ∉ g.pages) :=
  grouper_companyWide_never_personnel [c2page] c2page (List.mem_cons_self _ _) rfl

/-- C10: routing company-wide pages does not change the current personnel
context: a continuation page separated from a personnel-bearing page only by
company-wide pages still lands in that personnel number's group. -/
theorem grouper_company_pages_keep_context :
    ∀ (pre mids post : List ExtractedPage) (p0 cont : ExtractedPage) (P : String),
      p0.isCompanyWide = false → p0.personnelNumber = some P → P ≠ "" →
      (∀ q ∈ mids, q.isCompanyWide = true) →
      cont.personnelNumber = none → cont.isCompanyWide = false →
      ∃ g ∈ (groupByPersonnel (pre ++ p0 :: (mids ++ cont :: post))).personnelGroups,
        g.personnelNumber = P ∧ cont ∈ g.pages := by
  intro pre mids post p0 cont P h0c h0p hP hmids hcn hcc
  have hPe : P.isEmpty = false := by
    cases he : P.isEmpty
    · rfl
    · exact absurd ((String.isEmpty_iff P).mp he) hP
  have hctx : lastCtxFrom none (pre ++ p0 :: mids) = some P := by
    rw [lastCtxFrom_append]
    rw [show ∀ c, lastCtxFrom c (p0 :: mids) = lastCtxFrom (nextCtx c p0) mids from
      fun c => rfl]
    rw [lastCtxFrom_all_companyWide hmids]
    simp [nextCtx, curOf, h0c, h0p, jsTruthy, hPe]
  have hroute : routeKey (some P) cont = some P := by
    simp [routeKey, curOf, hcn, hcc, jsTruthy, hPe]
  have hsplit : pre ++ p0 :: (mids ++ cont :: post) =
      (pre ++ p0 :: mids) ++ cont :: post := by simp
  rw [hsplit]
  have hmem : (P, cont) ∈ routedPairs none ((pre ++ p0 :: mids) ++ cont :: post) := by
    rw [routedPairs_append, hctx]
    refine List.mem_append_right _ ?_
    rw [routedPairs, hroute]
    exact List.mem_cons_self _ _
  exact exists_personnelGroup hmem

def c10comp : ExtractedPage := samplePage ("UNKNOWN") 1 none true

def c10cont : ExtractedPage := samplePage ("LOGN17") 2 none false

theorem grouper_company_pages_keep_context_witness :
    ∃ g ∈ (groupByPersonnel ([] ++ c1page0 ::
        ([c10comp] ++ c10cont :: []))).personnelGroups,
      g.personnelNumber = "111" ∧ c10cont ∈ g.pages :=
  grouper_company_pages_keep_context [] [c10comp] [] c1page0 c10cont "111"
    rfl rfl (by decide) (by decide) rfl rfl

def c4page : ExtractedPage := samplePage ("LOGN17" ) 0 none false

/-- C4 counterexample: a non-company-wide page with no personnel number and no
prior context lands in a company group, so a `CompanyGroup` can contain a page
with `isCompanyWide = false`, refuting the claim that company groups contain
company-wide pages only. -/
theorem companyGroup_pages_counterexample :
    (groupByPersonnel [c4page]).companyGroups.map
      (fun cg => cg.pages.map (fun p => p.isCompanyWide)) = [[false]] := by
  decide

/-- C4 (amended): every page in a company group is either company-wide or a
fallback page carrying no truthy personnel number (routed there because no
personnel context had been established yet). -/
theorem companyGroup_pages_companyWide_or_fallback :
    ∀ (pages : List ExtractedPage), ∀ cg ∈ (groupByPersonnel pages).companyGroups,
      ∀ q ∈ cg.pages, q.isCompanyWide = true ∨ jsTruthy q.personnelNumber = false := by
  intro pages cg hcg q hq
  obtain ⟨k, hcg_eq, _⟩ := companyGroup_structure hcg
  subst hcg_eq
  simp only [mkCompanyGroup] at hq
  exact routedCompany_cases (List.mem_filter.mp hq).1

theorem companyGroup_pages_companyWide_or_fallback_witness :
    c4page.isCompanyWide = true ∨ jsTruthy c4page.personnelNumber = false :=
  companyGroup_pages_companyWide_or_fallback [c4page]
    ((groupByPersonnel [c4page]).companyGroups.headD default) (by decide)
    c4page (by decide)

/-- C5: grouping neither drops nor duplicates pages — the pages of all
personnel and company groups together are a permutation of the input — and
within each single group the pages form a sublist (hence keep the original
order) of the input. -/
theorem grouper_page_partition :
    ∀ pages : List ExtractedPage,
      (((groupByPersonnel pages).personnelGroups.map (fun g => g.pages)).flatten ++
        ((groupByPersonnel pages).companyGroups.map (fun cg => cg.pages)).flatten).Perm
        pages ∧
      (∀ g ∈ (groupByPersonnel pages).personnelGroups, g.pages.Sublist pages) ∧
      (∀ cg ∈ (groupByPersonnel pages).companyGroups, cg.pages.Sublist pages) := by
  intro pages
  refine ⟨?_, ?_, ?_⟩
  · have h1 : (groupByPersonnel pages).personnelGroups.map (fun g => g.pages) =
        (bucketsOf (routedPairs none pages)).map Prod.snd := by
      rw [groupByPersonnel_personnelGroups, List.map_map]
      rfl
    have h2 : (groupByPersonnel pages).companyGroups.map (fun cg => cg.pages) =
        (bucketsOf ((routedCompany none pages).map
          (fun p => (monthKey (inferredDateOf pages) p, p)))).map Prod.snd := by
      rw [groupByPersonnel_companyGroups, List.map_map]
      rfl
    rw [h1, h2]
    have hp1 := flatten_bucketsOf_perm (routedPairs none pages)
    have hp2 := flatten_bucketsOf_perm ((routedCompany none pages).map
      (fun p => (monthKey (inferredDateOf pages) p, p)))
    have hid : ((routedCompany none pages).map
        (fun p => (monthKey (inferredDateOf pages) p, p))).map Prod.snd =
        routedCompany none pages := by
      rw [List.map_map]
      show (routedCompany none pages).map (fun p => p) = routedCompany none pages
      simp
    rw [hid] at hp2
    exact (hp1.append hp2).trans (routed_partition_perm pages none)
  · intro g hg
    obtain ⟨k, hgeq, _⟩ := personnelGroup_structure hg
    subst hgeq
    show (valuesFor k (routedPairs none pages)).Sublist pages
    exact (valuesFor_sublist _ _).trans (routedPairs_map_snd_sublist pages none)
  · intro cg hcg
    obtain ⟨k, hgeq, _⟩ := companyGroup_structure hcg
    subst hgeq
    show ((routedCompany none pages).filter _).Sublist pages
    exact (List.filter_sublist _).trans (routedCompany_sublist pages none)

theorem grouper_page_partition_witness :
    (((groupByPersonnel [c1page0, c1page1, c1page2]).personnelGroups.map
        (fun g => g.pages)).flatten ++
      ((groupByPersonnel [c1page0, c1page1, c1page2]).companyGroups.map
        (fun cg => cg.pages)).flatten).Perm [c1page0, c1page1, c1page2] ∧
    ((groupByPersonnel [c1page0, c1page1, c1page2]).personnelGroups.headD
        default).pages.Sublist [c1page0, c1page1, c1page2] :=
  ⟨(grouper_page_partition [c1page0, c1page1, c1page2]).1,
    (grouper_page_partition [c1page0, c1page1, c1page2]).2.1
      ((groupByPersonnel [c1page0, c1page1, c1page2]).personnelGroups.headD default)
      (by decide)⟩

/-! ### Period inference for company pages -/

theorem isEmpty_false_of_ne {s : String} (h : s ≠ "") : s.isEmpty = false := by
  cases he : s.isEmpty
  · rfl
  · exact absurd ((String.isEmpty_iff s).mp he) h

/-- The German month names the specification's data model allows in `DateInfo`. -/
def germanMonthNames : List String :=
  ["Januar", "Februar", "März", "April", "Mai", "Juni", "Juli", "August",
   "September", "Oktober", "November", "Dezember"]

theorem germanMonth_facts {m : String} (h : m ∈ germanMonthNames) :
    m ≠ "" ∧ ('-' : Char) ∉ m.data ∧ m ≠ "date" := by
  simp only [germanMonthNames, List.mem_cons, List.not_mem_nil, or_false] at h
  rcases h with rfl | rfl | rfl | rfl | rfl | rfl | rfl | rfl | rfl | rfl | rfl | rfl <;>
    exact ⟨by decide, by decide, by decide⟩

theorem append_dash_inj {a b c d : List Char} (hc : ('-' : Char) ∉ c)
    (hd : ('-' : Char) ∉ d) (h : a ++ '-' :: b = c ++ '-' :: d) : a = c ∧ b = d := by
  induction a generalizing c with
  | nil =>
    cases c with
    | nil =>
      simp only [List.nil_append, List.cons.injEq] at h
      exact ⟨rfl, h.2⟩
    | cons c0 cs =>
      simp only [List.nil_append, List.cons_append, List.cons.injEq] at h
      exact absurd (h.1 ▸ List.mem_cons_self c0 cs) (h.1 ▸ hc)
  | cons a0 as ih =>
    cases c with
    | nil =>
      simp only [List.cons_append, List.nil_append, List.cons.injEq] at h
      exfalso
      apply hd
      rw [← h.2]
      exact List.mem_append_right _ (List.mem_cons_self _ _)
    | cons c0 cs =>
      simp only [List.cons_append, List.cons.injEq] at h
      obtain ⟨h1, h2⟩ := h
      have hc' : ('-' : Char) ∉ cs := fun hm => hc (List.mem_cons_of_mem _ hm)
      obtain ⟨ha, hb⟩ := ih hc' h2
      exact ⟨by rw [h1, ha], hb⟩

theorem string_dash_inj {a b c d : String} (hc : ('-' : Char) ∉ c.data)
    (hd : ('-' : Char) ∉ d.data) (h : a ++ "-" ++ b = c ++ "-" ++ d) :
    a = c ∧ b = d := by
  have hdata : a.data ++ '-' :: b.data = c.data ++ '-' :: d.data := by
    have h2 := congrArg String.data h
    simpa [String.data_append, List.append_assoc] using h2
  obtain ⟨h1, h2⟩ := append_dash_inj hc hd hdata
  exact ⟨String.ext h1, String.ext h2⟩

theorem inferredDateOf_of_all_same {pages : List ExtractedPage} {m y : String}
    (hm : m ≠ "") (hy : y ≠ "")
    (hne : (groupByPersonnel pages).personnelGroups ≠ [])
    (hall : ∀ g ∈ (groupByPersonnel pages).personnelGroups,
      g.dateInfo = { month := some m, year := some y }) :
    inferredDateOf pages = some (y, m) := by
  unfold inferredDateOf
  cases hgs : (groupByPersonnel pages).personnelGroups with
  | nil => exact absurd hgs hne
  | cons g0 rest =>
    rw [hgs] at hall
    have h0 : g0.dateInfo = { month := some m, year := some y } :=
      hall g0 (List.mem_cons_self _ _)
    simp [computeInferredDate, h0, jsTruthy,
      isEmpty_false_of_ne hm, isEmpty_false_of_ne hy]
    intro x hx
    rw [hall x (List.mem_cons_of_mem _ hx)]
    exact ⟨rfl, rfl⟩

theorem inferredDateOf_of_disagree {pages : List ExtractedPage}
    {g1 g2 : PersonnelGroup}
    (h1 : g1 ∈ (groupByPersonnel pages).personnelGroups)
    (h2 : g2 ∈ (groupByPersonnel pages).personnelGroups)
    (hne : g1.dateInfo ≠ g2.dateInfo) : inferredDateOf pages = none := by
  unfold inferredDateOf
  cases hgs : (groupByPersonnel pages).personnelGroups with
  | nil => rfl
  | cons g0 rest =>
    rw [hgs] at h1 h2
    have hall : (g0 :: rest).all (fun g =>
        (g.dateInfo.year == g0.dateInfo.year) &&
        (g.dateInfo.month == g0.dateInfo.month)) = false := by
      cases hcase : (g0 :: rest).all (fun g =>
          (g.dateInfo.year == g0.dateInfo.year) &&
          (g.dateInfo.month == g0.dateInfo.month))
      · rfl
      · exfalso
        have hsame : ∀ g ∈ g0 :: rest, g.dateInfo = g0.dateInfo := by
          intro g hg
          have hgb := List.all_eq_true.mp hcase g hg
          rw [Bool.and_eq_true, beq_iff_eq, beq_iff_eq] at hgb
          obtain ⟨hgy, hgm⟩ := hgb
          cases hgd : g.dateInfo
          cases h0d : g0.dateInfo
          rw [hgd, h0d] at hgy hgm
          simp at hgy hgm ⊢
          exact ⟨hgm, hgy⟩
        exact hne ((hsame g1 h1).trans (hsame g2 h2).symm)
    simp [computeInferredDate, hall]

theorem exists_companyGroup_with_inferred_date {pages : List ExtractedPage}
    {q : ExtractedPage} {y m : String} (hi : inferredDateOf pages = some (y, m))
    (hyd : ('-' : Char) ∉ y.data) (hmd : ('-' : Char) ∉ m.data)
    (hnm : ¬(y = "no" ∧ m = "date"))
    (hq : q ∈ routedCompany none pages)
    (hund : (jsTruthy q.year && jsTruthy q.month) = false) :
    ∃ cg ∈ (groupByPersonnel pages).companyGroups, q ∈ cg.pages ∧
      cg.dateInfo = some { month := some m, year := some y } := by
  obtain ⟨cg, hcg, hqin, hstruct⟩ := exists_companyGroup hq
  refine ⟨cg, hcg, hqin, ?_⟩
  have hkey : monthKey (inferredDateOf pages) q = y ++ "-" ++ m := by
    simp [monthKey, hund, hi]
  rw [hstruct, hkey]
  simp only [mkCompanyGroup]
  have hkeyne : ¬ (y ++ "-" ++ m) = "no-date" := by
    intro hcon
    have hcon2 : y ++ "-" ++ m = "no" ++ "-" ++ "date" := by rw [hcon]; rfl
    obtain ⟨h1, h2⟩ := string_dash_inj (by decide) (by decide) hcon2
    exact hnm ⟨h1, h2⟩
  rw [if_neg hkeyne]
  split
  next p hfind =>
    have hpin := List.mem_of_find?_eq_some hfind
    have hppred := List.find?_some hfind
    have hpk : monthKey (inferredDateOf pages) p = y ++ "-" ++ m := by
      have hmem2 := (List.mem_filter.mp hpin).2
      simpa using hmem2
    rw [Bool.and_eq_true] at hppred
    obtain ⟨hpy, hpm⟩ := hppred
    cases hy' : p.year with
    | none => rw [hy'] at hpy; simp [jsTruthy] at hpy
    | some py =>
    cases hm' : p.month with
    | none => rw [hm'] at hpm; simp [jsTruthy] at hpm
    | some pm =>
    rw [hy'] at hpy
    rw [hm'] at hpm
    have hpk2 : py ++ "-" ++ pm = y ++ "-" ++ m := by
      simpa [monthKey, hy', hm', hpy, hpm] using hpk
    obtain ⟨hpy2, hpm2⟩ := string_dash_inj hyd hmd hpk2
    subst hpy2
    subst hpm2
    simp [hpy, hpm]
  next hfind =>
    simp [hi]

theorem exists_companyGroup_dateInfo_none {pages : List ExtractedPage}
    {q : ExtractedPage} (hi : inferredDateOf pages = none)
    (hq : q ∈ routedCompany none pages)
    (hund : (jsTruthy q.year && jsTruthy q.month) = false) :
    ∃ cg ∈ (groupByPersonnel pages).companyGroups, q ∈ cg.pages ∧
      cg.dateInfo = none := by
  obtain ⟨cg, hcg, hqin, hstruct⟩ := exists_companyGroup hq
  refine ⟨cg, hcg, hqin, ?_⟩
  have hkey : monthKey (inferredDateOf pages) q = "no-date" := by
    simp [monthKey, hund, hi]
  rw [hstruct, hkey]
  simp [mkCompanyGroup]

/-- C3: when all produced personnel groups carry one identical, present
`(month, year)` period (a German month name and a non-empty dash-free year),
every company-wide page without an explicit period of its own lands in the
company bucket keyed by that shared period, and that bucket's `dateInfo` is
that period; when two personnel groups disagree on the period, undated
company-wide pages land in the sentinel bucket whose `dateInfo` is absent. -/
theorem grouper_period_inference :
    (∀ (pages : List ExtractedPage) (m y : String),
      m ∈ germanMonthNames → y ≠ "" → ('-' : Char) ∉ y.data →
      (groupByPersonnel pages).personnelGroups ≠ [] →
      (∀ g ∈ (groupByPersonnel pages).personnelGroups,
        g.dateInfo = { month := some m, year := some y }) →
      ∀ q ∈ pages, q.isCompanyWide = true →
        (jsTruthy q.year && jsTruthy q.month) = false →
        ∃ cg ∈ (groupByPersonnel pages).companyGroups, q ∈ cg.pages ∧
          cg.dateInfo = some { month := some m, year := some y }) ∧
    (∀ (pages : List ExtractedPage) (g1 g2 : PersonnelGroup),
      g1 ∈ (groupByPersonnel pages).personnelGroups →
      g2 ∈ (groupByPersonnel pages).personnelGroups →
      g1.dateInfo ≠ g2.dateInfo →
      ∀ q ∈ pages, q.isCompanyWide = true →
        (jsTruthy q.year && jsTruthy q.month) = false →
        ∃ cg ∈ (groupByPersonnel pages).companyGroups, q ∈ cg.pages ∧
          cg.dateInfo = none) := by
  constructor
  · intro pages m y hmN hy hyd hne hall q hqmem hqcw hund
    obtain ⟨hm1, hm2, hm3⟩ := germanMonth_facts hmN
    have hi := inferredDateOf_of_all_same hm1 hy hne hall
    have hq : q ∈ routedCompany none pages :=
      companyWide_mem_routedCompany hqmem hqcw none
    exact exists_companyGroup_with_inferred_date hi hyd hm2
      (fun hc => hm3 hc.2) hq hund
  · intro pages g1 g2 h1 h2 hneq q hqmem hqcw hund
    have hi := inferredDateOf_of_disagree h1 h2 hneq
    have hq : q ∈ routedCompany none pages :=
      companyWide_mem_routedCompany hqmem hqcw none
    exact exists_companyGroup_dateInfo_none hi hq hund

def c3pageA : ExtractedPage :=
  { samplePage ("LOGN17") 0 (some ("111")) false with
    month := some ("Oktober"), year := some ("2025") }

def c3pageB : ExtractedPage :=
  { samplePage ("LOGN17") 1 (some ("222")) false with
    month := some ("Januar"), year := some ("2024") }

def c3undatedA : ExtractedPage := samplePage ("UNKNOWN") 1 none true

def c3undatedB : ExtractedPage := samplePage ("UNKNOWN") 2 none true

theorem grouper_period_inference_witness :
    (∃ cg ∈ (groupByPersonnel [c3pageA, c3undatedA]).companyGroups,
      c3undatedA ∈ cg.pages ∧
      cg.dateInfo = some { month := some "Oktober", year := some "2025" }) ∧
    (∃ cg ∈ (groupByPersonnel [c3pageA, c3pageB, c3undatedB]).companyGroups,
      c3undatedB ∈ cg.pages ∧ cg.dateInfo = none) :=
  ⟨grouper_period_inference.1 [c3pageA, c3undatedA] "Oktober" "2025"
      (by decide) (by decide) (by decide) (by decide) (by decide)
      c3undatedA (by decide) rfl rfl,
    grouper_period_inference.2 [c3pageA, c3pageB, c3undatedB]
      ((groupByPersonnel [c3pageA, c3pageB, c3undatedB]).personnelGroups.headD default)
      (((groupByPersonnel [c3pageA, c3pageB, c3undatedB]).personnelGroups.drop 1).headD
        default)
      (by decide) (by decide) (by decide)
      c3undatedB (by decide) rfl rfl⟩

/-! ### A small backtracking regex engine with JavaScript semantics

Each matcher returns every `(consumed, rest)` split in the engine's
backtracking preference order (greedy quantifiers, left-biased alternation),
so taking the first surviving alternative reproduces the JS regex result. -/

/-- JavaScript `\s` (whitespace class). -/
def isWsChar (c : Char) : Bool :=
  c == ' ' || c == '\t' || c == '\n' || c == '\r' ||
  c.val == 0x0b || c.val == 0x0c || c.val == 0x00a0 ||
  c.val == 0x1680 || (0x2000 ≤ c.val && c.val ≤ 0x200a) ||
  c.val == 0x2028 || c.val == 0x2029 || c.val == 0x202f ||
  c.val == 0x205f || c.val == 0x3000 || c.val == 0xfeff

/-- A matcher: all `(consumed, rest)` alternatives, most preferred first. -/
abbrev Matcher := List Char → List (List Char × List Char)

def epsM : Matcher := fun cs => [([], cs)]

/-- One character of a class. -/
def chclsM (p : Char → Bool) : Matcher := fun cs =>
  match cs with
  | [] => []
  | c :: r => if p c then [([c], r)] else []

/-- Sequencing; alternatives of the first matcher dominate. -/
def seqM (m1 m2 : Matcher) : Matcher := fun cs =>
  (m1 cs).flatMap (fun pr1 => (m2 pr1.2).map (fun pr2 => (pr1.1 ++ pr2.1, pr2.2)))

/-- Left-biased alternation. -/
def altM (m1 m2 : Matcher) : Matcher := fun cs => m1 cs ++ m2 cs

/-- Greedy `?`. -/
def optM (m : Matcher) : Matcher := fun cs => m cs ++ [([], cs)]

/-- Greedy `*` driven by fuel; every iteration must consume input. -/
def starFuel (m : Matcher) : Nat → Matcher
  | 0 => fun cs => [([], cs)]
  | n + 1 => fun cs =>
    ((m cs).filter (fun pr => !pr.1.isEmpty)).flatMap
      (fun pr1 => (starFuel m n pr1.2).map (fun pr2 => (pr1.1 ++ pr2.1, pr2.2)))
    ++ [([], cs)]

def starM (m : Matcher) : Matcher := fun cs => starFuel m cs.length cs

/-- Greedy `+`. -/
def plusM (m : Matcher) : Matcher := seqM m (starM m)

/-- Exactly `n` repetitions. -/
def repNM : Nat → Matcher → Matcher
  | 0, _ => epsM
  | n + 1, m => seqM m (repNM n m)

/-- Greedily up to `n` repetitions. -/
def upToM : Nat → Matcher → Matcher
  | 0, _ => epsM
  | n + 1, m => fun cs =>
    ((m cs).filter (fun pr => !pr.1.isEmpty)).flatMap
      (fun pr1 => (upToM n m pr1.2).map (fun pr2 => (pr1.1 ++ pr2.1, pr2.2)))
    ++ [([], cs)]

/-- Case folding used by the `i` flag (ASCII, as in the matched patterns). -/
def charEqCI (a b : Char) : Bool := a.toLower == b.toLower

def dropLit (ci : Bool) : List Char → List Char → Option (List Char)
  | [], cs => some cs
  | _ :: _, [] => none
  | p :: ps, c :: cs =>
    if (if ci then charEqCI p c else p == c) then dropLit ci ps cs else none

/-- A literal, case-insensitive when `ci` is set. -/
def litM (ci : Bool) (pat : List Char) : Matcher := fun cs =>
  match dropLit ci pat cs with
  | some rest => [(cs.take pat.length, rest)]
  | none => []

def firstSome {α : Type} : List (Option α) → Option α
  | [] => none
  | o :: rest =>
    match o with
    | some a => some a
    | none => firstSome rest

/-- Match `pre` then a capturing group `cap` then a lookahead at one position;
returns the first surviving capture in backtracking order. -/
def matchCapAt (pre cap : Matcher) (look : List Char → Bool) (cs : List Char) :
    Option (List Char) :=
  firstSome ((pre cs).map (fun pr1 =>
    firstSome ((cap pr1.2).map (fun pr2 =>
      if look pr2.2 then some pr2.1 else none))))

/-- Scan start positions left to right (JS `String.prototype.match`). -/
def scanCap (pre cap : Matcher) (look : List Char → Bool) : List Char → Option (List Char)
  | [] => matchCapAt pre cap look []
  | c :: cs =>
    match matchCapAt pre cap look (c :: cs) with
    | some r => some r
    | none => scanCap pre cap look cs

def wsM : Matcher := chclsM isWsChar

def digitM : Matcher := chclsM (fun c => c.isDigit)

/-! ### Form detection (`form-detector.ts`) -/

/-- `[A-Z0-9]` under the `i` flag. -/
def isAlnumCI (c : Char) : Bool :=
  c.isDigit || ('A' ≤ c && c ≤ 'Z') || ('a' ≤ c && c ≤ 'z')

/-- The marker alternation of `FORM_NUMBER_PATTERN`. -/
def formMarkerM : Matcher :=
  altM (litM true ("Form.-Nr.".data))
    (altM (litM true ("Formular-Nr.".data)) (litM true ("F.-Nr.".data)))

/-- Everything of `FORM_NUMBER_PATTERN` before the capture: marker, optional
whitespace, optional colon, optional whitespace. -/
def formNumberPre : Matcher :=
  seqM formMarkerM (seqM (starM wsM)
    (seqM (optM (chclsM (fun c => c == ':'))) (starM wsM)))

/-- The capture `([A-Z0-9]+)` of `FORM_NUMBER_PATTERN`. -/
def formNumberCap : Matcher := plusM (chclsM isAlnumCI)

/-- `text.match(FORM_NUMBER_PATTERN)?.[1]`. -/
def formNumberMatch (text : String) : Option String :=
  (scanCap formNumberPre formNumberCap (fun _ => true) text.data).map
    (fun cap => String.mk cap)

/-- The only detector-relevant data of a form handler class. -/
structure FormHandler where
  formType : String
deriving DecidableEq, Repr

/-- `allFormHandlers` from `core/forms/index.ts`. -/
def allFormHandlers : List FormHandler :=
  [{ formType := "LOGN17" }, { formType := "LOMS05" }, { formType := "UNKNOWN" }]

/-- JS `String.prototype.toUpperCase`, character-wise. -/
def toUpperJs (s : String) : String := String.mk (s.data.map Char.toUpper)

/-- `FormDetector.detectFormType` from `form-detector.ts`. -/
def detectFormType (text : String) : String :=
  match formNumberMatch text with
  | some code =>
    match allFormHandlers.find? (fun f => f.formType == toUpperJs code) with
    | some h => h.formType
    | none => "UNKNOWN"
  | none => "UNKNOWN"

/-! ### LOGN17 field extraction (`src/core/forms` salary form) -/

/-- One `(?:\s+\d{2,4})` group of the IBAN / netto patterns. -/
def ibanGrpM : Matcher :=
  seqM (plusM wsM) (seqM digitM (seqM digitM (upToM 2 digitM)))

/-- The capture `(DE\d{2}(?:\s+\d{2,4}){5,6})` of the `iban` pattern. -/
def ibanCapM : Matcher :=
  seqM (litM false ("DE".data))
    (seqM digitM (seqM digitM (seqM (repNM 5 ibanGrpM) (upToM 1 ibanGrpM))))

/-- The lookahead `(?=\s+\d)` of the `iban` pattern. -/
def wsDigitLook (cs : List Char) : Bool :=
  !((seqM (plusM wsM) digitM) cs).isEmpty

/-- `text.match(patterns.iban)?.[1]`. -/
def ibanMatch (text : String) : Option String :=
  (scanCap epsM ibanCapM wsDigitLook text.data).map (fun cap => String.mk cap)

/-- `match[1].replace(/\s/g, "")`. -/
def stripWs (s : String) : String :=
  String.mk (s.data.filter (fun c => !isWsChar c))

/-- `LOGN17Form.extractIBAN`. -/
def extractIBAN (text : String) : Option String :=
  (ibanMatch text).map stripWs

/-- `[.,]` of the amount pattern. -/
def sepM : Matcher := chclsM (fun c => c == '.' || c == ',')

/-- The amount capture `(\d{1,3}(?:[.,]\d{3})*[.,]\d{2})`. -/
def amountCapM : Matcher :=
  seqM digitM (seqM (upToM 2 digitM)
    (seqM (starM (seqM sepM (repNM 3 digitM))) (seqM sepM (repNM 2 digitM))))

/-- `[A-Z\s]` under the `i` flag. -/
def isUpperWsCI (c : Char) : Bool :=
  ('A' ≤ c && c ≤ 'Z') || ('a' ≤ c && c ≤ 'z') || isWsChar c

/-- `Gehalt\s+[A-Z\s]+\s+` — the `brutto` pattern before its capture. -/
def bruttoPre : Matcher :=
  seqM (litM true ("Gehalt".data))
    (seqM (plusM wsM) (seqM (plusM (chclsM isUpperWsCI)) (plusM wsM)))

/-- `text.match(patterns.brutto)?.[1]`. -/
def bruttoMatch (text : String) : Option String :=
  (scanCap bruttoPre amountCapM (fun _ => true) text.data).map
    (fun cap => String.mk cap)

/-- `DE\d{2}(?:\s+\d{2,4})+\s+(?:\d+\s+)?` — the `netto` pattern before its
capture. -/
def nettoPre : Matcher :=
  seqM (litM false ("DE".data))
    (seqM digitM (seqM digitM
      (seqM (plusM ibanGrpM)
        (seqM (plusM wsM)
          (optM (seqM (plusM digitM) (plusM wsM)))))))

/-- `text.match(patterns.netto)?.[1]`. -/
def nettoMatch (text : String) : Option String :=
  (scanCap nettoPre amountCapM (fun _ => true) text.data).map
    (fun cap => String.mk cap)

/-- `.replace(",", ".")` — JS replaces only the first occurrence. -/
def replFirstComma : List Char → List Char
  | [] => []
  | c :: r => if c == ',' then '.' :: r else c :: replFirstComma r

/-- `match[1].replace(/\./g, "").replace(",", ".")` — the German-amount
normalization shared by `extractBrutto` and `extractNetto`. -/
def normalizeAmount (s : String) : String :=
  String.mk (replFirstComma (s.data.filter (fun c => !(c == '.'))))

/-- `LOGN17Form.extractBrutto`. -/
def extractBrutto (text : String) : Option String :=
  (bruttoMatch text).map normalizeAmount

/-- `LOGN17Form.extractNetto`. -/
def extractNetto (text : String) : Option String :=
  (nettoMatch text).map normalizeAmount

theorem detectFormType_characterization (text : String) :
    detectFormType text =
      match formNumberMatch text with
      | some code =>
        if toUpperJs code = "LOGN17" then "LOGN17"
        else if toUpperJs code = "LOMS05" then "LOMS05"
        else "UNKNOWN"
      | none => "UNKNOWN" := by
  unfold detectFormType
  cases hm : formNumberMatch text with
  | none => rfl
  | some code =>
    by_cases h1 : toUpperJs code = "LOGN17"
    · simp [allFormHandlers, List.find?, h1]
    · have e1 : ("LOGN17" == toUpperJs code) = false := by
        rw [beq_eq_false_iff_ne]; exact fun he => h1 he.symm
      by_cases h2 : toUpperJs code = "LOMS05"
      · simp [allFormHandlers, List.find?, e1, h1, h2]
      · have e2 : ("LOMS05" == toUpperJs code) = false := by
          rw [beq_eq_false_iff_ne]; exact fun he => h2 he.symm
        by_cases h3 : toUpperJs code = "UNKNOWN"
        · simp [allFormHandlers, List.find?, e1, e2, h1, h2, h3]
        · have e3 : ("UNKNOWN" == toUpperJs code) = false := by
            rw [beq_eq_false_iff_ne]; exact fun he => h3 he.symm
          simp [allFormHandlers, List.find?, e1, e2, e3, h1, h2]

theorem detectFormType_of_match_some {text code : String}
    (hm : formNumberMatch text = some code) :
    detectFormType text =
      if toUpperJs code = "LOGN17" then "LOGN17"
      else if toUpperJs code = "LOMS05" then "LOMS05"
      else "UNKNOWN" := by
  rw [detectFormType_characterization, hm]

theorem detectFormType_of_match_none {text : String}
    (hm : formNumberMatch text = none) : detectFormType text = "UNKNOWN" := by
  rw [detectFormType_characterization, hm]

/-- C6: the detector returns a registered employee-form tag exactly when the
first form-number marker match carries a code whose uppercase form is that
tag; a marker with any other code, or no marker at all, yields `UNKNOWN` —
including for body text that otherwise looks like a known form. -/
theorem detector_marker_only :
    (∀ text : String,
      ((detectFormType text = "LOGN17" ∨ detectFormType text = "LOMS05") ↔
        (∃ c, formNumberMatch text = some c ∧
          (toUpperJs c = "LOGN17" ∨ toUpperJs c = "LOMS05"))) ∧
      (∀ c, formNumberMatch text = some c → toUpperJs c ≠ "LOGN17" →
        toUpperJs c ≠ "LOMS05" → detectFormType text = "UNKNOWN") ∧
      (formNumberMatch text = none → detectFormType text = "UNKNOWN")) ∧
    detectFormType ("Lohnabrechnung Personalnummer 12345 Gehalt 1.234,56") =
      "UNKNOWN" ∧
    detectFormType ("Form.-Nr.: LOGN17") = "LOGN17" ∧
    detectFormType ("xx F.-Nr. loms05") = "LOMS05" ∧
    detectFormType ("Formular-Nr. XYZ99") = "UNKNOWN" := by
  refine ⟨?_, by decide, by decide, by decide, by decide⟩
  intro text
  refine ⟨?_, ?_, ?_⟩
  · cases hm : formNumberMatch text with
    | none =>
      rw [detectFormType_of_match_none hm]
      constructor
      · rintro (h | h) <;> exact absurd h (by decide)
      · rintro ⟨c, hc, _⟩; cases hc
    | some code =>
      rw [detectFormType_of_match_some hm]
      constructor
      · intro h
        by_cases h1 : toUpperJs code = "LOGN17"
        · exact ⟨code, rfl, Or.inl h1⟩
        · by_cases h2 : toUpperJs code = "LOMS05"
          · exact ⟨code, rfl, Or.inr h2⟩
          · rw [if_neg h1, if_neg h2] at h
            rcases h with h | h <;> exact absurd h (by decide)
      · rintro ⟨c, hc, hdisj⟩
        have hcc : c = code := (Option.some.inj hc).symm
        subst hcc
        rcases hdisj with h1 | h1 <;> simp [h1]
  · intro c hc h1 h2
    rw [detectFormType_of_match_some hc, if_neg h1, if_neg h2]
  · intro hm
    exact detectFormType_of_match_none hm

theorem detector_marker_only_witness :
    detectFormType ("F.-Nr. QQQ1") = "UNKNOWN" :=
  (detector_marker_only.1 ("F.-Nr. QQQ1")).2.1 "QQQ1" (by decide) (by decide)
    (by decide)

/-- C7 counterexample: a page text that consists exactly of the token sequence
`DE89 3704 0044 0532 0130 00` — and therefore contains it — yields no IBAN at
all, because the `iban` pattern requires the match to be followed by
whitespace and a digit. -/
theorem extractIBAN_counterexample :
    extractIBAN ("DE89 3704 0044 0532 0130 00") = none := by decide

theorem matchCapAt_iban_none {c : Char} (l : List Char) (hc : c ≠ 'D') :
    matchCapAt epsM ibanCapM wsDigitLook (c :: l) = none := by
  have hlit : dropLit false ("DE".data) (c :: l) = none := by
    show dropLit false ('D' :: 'E' :: []) (c :: l) = none
    have hb : ('D' == c) = false := beq_eq_false_iff_ne.mpr (fun he => hc he.symm)
    simp [dropLit, hb]
  simp [matchCapAt, epsM, ibanCapM, seqM, litM, hlit, firstSome]

theorem scanCap_iban_skip (p : List Char) (rest : List Char)
    (hp : ∀ c ∈ p, c ≠ 'D') :
    scanCap epsM ibanCapM wsDigitLook (p ++ rest) =
      scanCap epsM ibanCapM wsDigitLook rest := by
  induction p with
  | nil => rfl
  | cons c p ih =>
    have hc : c ≠ 'D' := hp c (List.mem_cons_self _ _)
    simp only [List.cons_append, scanCap, matchCapAt_iban_none _ hc]
    exact ih (fun d hd => hp d (List.mem_cons_of_mem _ hd))

/-- C7 (amended): the IBAN field is the whitespace-stripped first match of
`DE` + 2 digits followed by 5–6 whitespace-separated groups of 2–4 digits
that is immediately followed by whitespace and a digit (greedily preferring
6 groups): text before the first `D` cannot start a match; the example token
sequence followed by whitespace and an amount yields
`DE89370400440532013000`; the bare token sequence yields no IBAN; and an
immediately following 2–4-digit group is absorbed into the IBAN. -/
theorem extractIBAN_amended :
    (∀ (p : List Char) (text : String), (∀ c ∈ p, c ≠ 'D') →
      extractIBAN (String.mk (p ++ text.data)) = extractIBAN text) ∧
    extractIBAN ("DE89 3704 0044 0532 0130 00 2.100,50") =
      some "DE89370400440532013000" ∧
    extractIBAN ("DE89 3704 0044 0532 0130 00") = none ∧
    extractIBAN ("DE89 3704 0044 0532 0130 00 12 3") =
      some "DE8937040044053201300012" := by
  refine ⟨?_, by decide, by decide, by decide⟩
  intro p text hp
  unfold extractIBAN ibanMatch
  rw [show (String.mk (p ++ text.data)).data = p ++ text.data from rfl]
  rw [scanCap_iban_skip p text.data hp]

theorem extractIBAN_amended_witness :
    extractIBAN (String.mk (("Betrag: ").data ++
        ("DE89 3704 0044 0532 0130 00 2.100,50").data)) =
      extractIBAN ("DE89 3704 0044 0532 0130 00 2.100,50") :=
  extractIBAN_amended.1 (("Betrag: ").data)
    ("DE89 3704 0044 0532 0130 00 2.100,50") (by decide)

/-- A German-formatted amount: 1–3 digits, then dot-separated 3-digit
thousands groups, then a comma and exactly two decimal digits. -/
def GermanAmount (s : String) : Prop :=
  ∃ (a : List Char) (gs : List (List Char)) (d : List Char),
    s.data = a ++ (gs.map (fun g => '.' :: g)).flatten ++ ',' :: d ∧
    1 ≤ a.length ∧ a.length ≤ 3 ∧ (∀ ch ∈ a, ch.isDigit) ∧
    (∀ g ∈ gs, g.length = 3 ∧ ∀ ch ∈ g, ch.isDigit) ∧
    d.length = 2 ∧ (∀ ch ∈ d, ch.isDigit)

/-- Modelled from the spec: the canonical decimal string obtained by removing
every `.` and replacing `,` with `.`. -/
def specNormalize (s : String) : String :=
  String.mk ((s.data.filter (fun c => c ≠ '.')).map
    (fun c => if c = ',' then '.' else c))

theorem map_toDot_of_not_mem {l : List Char} (h : (',' : Char) ∉ l) :
    l.map (fun c => if c = ',' then '.' else c) = l := by
  induction l with
  | nil => rfl
  | cons c r ih =>
    have hc : c ≠ ',' := fun he => h (he ▸ List.mem_cons_self _ _)
    rw [List.map_cons, if_neg hc, ih (fun hm => h (List.mem_cons_of_mem _ hm))]

theorem replFirstComma_eq_map {l : List Char} (h : l.count ',' ≤ 1) :
    replFirstComma l = l.map (fun c => if c = ',' then '.' else c) := by
  induction l with
  | nil => rfl
  | cons c r ih =>
    by_cases hc : c = ','
    · subst hc
      have hcount : r.count ',' = 0 := by
        rw [List.count_cons_self] at h
        omega
      have hnm : (',' : Char) ∉ r := List.count_eq_zero.mp hcount
      simp [replFirstComma, map_toDot_of_not_mem hnm]
    · have hb : (c == ',') = false := beq_eq_false_iff_ne.mpr hc
      have hr : r.count ',' ≤ 1 := by
        rw [List.count_cons, hb] at h
        simpa using h
      rw [show replFirstComma (c :: r) = c :: replFirstComma r from by
        simp [replFirstComma, hb]]
      rw [List.map_cons, if_neg hc, ih hr]

theorem germanAmount_count {s : String} (h : GermanAmount s) :
    s.data.count ',' = 1 := by
  obtain ⟨a, gs, d, hdata, _, _, ha, hgs, _, hd⟩ := h
  rw [hdata]
  have hca : a.count ',' = 0 := by
    rw [List.count_eq_zero]
    intro hm
    exact absurd (ha ',' hm) (by decide)
  have hcj : ((gs.map (fun g => '.' :: g)).flatten).count ',' = 0 := by
    rw [List.count_eq_zero]
    intro hm
    obtain ⟨l, hl, hml⟩ := List.mem_flatten.mp hm
    obtain ⟨g, hg, rfl⟩ := List.mem_map.mp hl
    rcases List.mem_cons.mp hml with he | hgm
    · exact absurd he (by decide)
    · exact absurd ((hgs g hg).2 ',' hgm) (by decide)
  have hcd : d.count ',' = 0 := by
    rw [List.count_eq_zero]
    intro hm
    exact absurd (hd ',' hm) (by decide)
  rw [List.count_append, List.count_append, hca, hcj, List.count_cons_self, hcd]

theorem normalizeAmount_eq_spec {s : String} (h : GermanAmount s) :
    normalizeAmount s = specNormalize s := by
  unfold normalizeAmount specNormalize
  have hfeq : s.data.filter (fun c => !(c == '.')) =
      s.data.filter (fun c => c ≠ '.') :=
    List.filter_congr (fun c _ => by by_cases hcd : c = '.' <;> simp [hcd])
  rw [hfeq]
  congr 1
  apply replFirstComma_eq_map
  have h2 : (s.data.filter (fun c => (c : Char) ≠ '.')).count ',' =
      s.data.count ',' :=
    List.count_filter (by decide)
  rw [h2, germanAmount_count h]

/-- C8: whenever the brutto or netto pattern matches a German-formatted amount
(`.` thousands separator, `,` decimal separator), the extracted field is the
canonical decimal string obtained by removing every `.` and replacing `,` with
`.`; in particular `1.234,56` normalizes to `1234.56` and `45,00` to `45.00`. -/
theorem amount_normalization :
    (∀ (text : String) (s : String), bruttoMatch text = some s → GermanAmount s →
      extractBrutto text = some (specNormalize s)) ∧
    (∀ (text : String) (s : String), nettoMatch text = some s → GermanAmount s →
      extractNetto text = some (specNormalize s)) ∧
    normalizeAmount ("1.234,56") = "1234.56" ∧
    normalizeAmount ("45,00") = "45.00" ∧
    extractBrutto ("Gehalt AB 1.234,56") = some "1234.56" ∧
    extractNetto ("DE12 34 45,00") = some "45.00" := by
  refine ⟨?_, ?_, by decide, by decide, by decide, by decide⟩
  · intro text s hm hg
    rw [show extractBrutto text = (bruttoMatch text).map normalizeAmount from rfl,
      hm, Option.map_some', normalizeAmount_eq_spec hg]
  · intro text s hm hg
    rw [show extractNetto text = (nettoMatch text).map normalizeAmount from rfl,
      hm, Option.map_some', normalizeAmount_eq_spec hg]

theorem amount_normalization_witness :
    extractBrutto ("Gehalt AB 1.234,56") = some (specNormalize ("1.234,56")) :=
  amount_normalization.1 ("Gehalt AB 1.234,56") ("1.234,56") (by decide)
    ⟨['1'], [['2', '3', '4']], ['5', '6'], by decide, by decide, by decide,
      by decide, by decide, by decide, by decide⟩

/-! ### SEPA transfer CSV (`SepaTransfersGenerator`) -/

/-- Type guard `isLOGN17Page` from `type-guards.ts`. -/
def isLOGN17Page (p : ExtractedPage) : Bool := p.formType == "LOGN17"

/-- The row pushed for one group inside `generateSepaTransfersCsv`
(`continue` on groups without a LOGN17 page becomes `none`). -/
def sepaRow (group : PersonnelGroup) : Option String :=
  match group.pages.find? isLOGN17Page with
  | none => none
  | some page =>
    let beneficiaryName := if group.employeeName.isEmpty then "" else group.employeeName
    let iban := jsOrOpt page.iban ("")
    let amount := jsOrOpt page.netto ("")
    let currency := "EUR"
    let month := jsOrOpt group.dateInfo.month ("")
    let year := jsOrOpt group.dateInfo.year ("")
    let reference :=
      if !month.isEmpty && !year.isEmpty then
        "Gehalt " ++ month ++ " " ++ year ++ " (" ++ group.personnelNumber ++ ")"
      else
        "Gehalt (" ++ group.personnelNumber ++ ")"
    some (String.intercalate ","
      ([beneficiaryName, iban, amount, currency, reference].map
        (fun v => "\"" ++ v ++ "\"")))

/-- `SepaTransfersGenerator.generateSepaTransfersCsv`. -/
def generateSepaTransfersCsv (groups : List PersonnelGroup) : String :=
  String.intercalate "\n"
    ("beneficiary_name,iban,amount,currency,reference" :: groups.filterMap sepaRow)

/-- Modelled from the spec: one quoted CSV row per group holding a Salary
page — beneficiary name, IBAN, net amount, the literal `EUR`, and the
reference `Gehalt {month} {year} ({personnelNumber})`, or
`Gehalt ({personnelNumber})` when the period is unknown. -/
def sepaRowSpec (group : PersonnelGroup) : Option String :=
  match group.pages.find? isLOGN17Page with
  | none => none
  | some page =>
    let reference :=
      match group.dateInfo.month, group.dateInfo.year with
      | some mo, some yr =>
        if mo = "" ∨ yr = "" then "Gehalt (" ++ group.personnelNumber ++ ")"
        else "Gehalt " ++ mo ++ " " ++ yr ++ " (" ++ group.personnelNumber ++ ")"
      | _, _ => "Gehalt (" ++ group.personnelNumber ++ ")"
    some (String.intercalate ","
      ([group.employeeName, page.iban.getD (""), page.netto.getD (""), "EUR",
        reference].map (fun v => "\"" ++ v ++ "\"")))

theorem jsOrOpt_empty_default (o : Option String) : jsOrOpt o ("") = o.getD ("") := by
  cases o with
  | none => rfl
  | some s =>
    show (if s.isEmpty then "" else s) = s
    by_cases hs : s.isEmpty
    · rw [if_pos hs, (String.isEmpty_iff s).mp hs]
    · rw [if_neg hs]

theorem empty_isEmpty : ("" : String).isEmpty = true := by decide

theorem sepaRef_eq (g : PersonnelGroup) :
    (if !(g.dateInfo.month.getD ("")).isEmpty &&
        !(g.dateInfo.year.getD ("")).isEmpty then
      "Gehalt " ++ g.dateInfo.month.getD ("") ++ " " ++
        g.dateInfo.year.getD ("") ++ " (" ++ g.personnelNumber ++ ")"
    else "Gehalt (" ++ g.personnelNumber ++ ")") =
    (match g.dateInfo.month, g.dateInfo.year with
     | some mo, some yr =>
       if mo = "" ∨ yr = "" then "Gehalt (" ++ g.personnelNumber ++ ")"
       else "Gehalt " ++ mo ++ " " ++ yr ++ " (" ++ g.personnelNumber ++ ")"
     | _, _ => "Gehalt (" ++ g.personnelNumber ++ ")") := by
  cases hmo : g.dateInfo.month with
  | none => simp [empty_isEmpty]
  | some mo =>
    cases hyr : g.dateInfo.year with
    | none => simp [empty_isEmpty]
    | some yr =>
      by_cases hme : mo.isEmpty
      · have he : mo = "" := (String.isEmpty_iff mo).mp hme
        subst he
        simp [empty_isEmpty]
      · by_cases hye : yr.isEmpty
        · have he : yr = "" := (String.isEmpty_iff yr).mp hye
          subst he
          simp [empty_isEmpty]
        · have hm' : ¬ mo = "" := by
            intro he; rw [he] at hme; exact hme (by decide)
          have hy' : ¬ yr = "" := by
            intro he; rw [he] at hye; exact hye (by decide)
          simp [hme, hye, hm', hy']

theorem sepaRow_eq_spec (g : PersonnelGroup) : sepaRow g = sepaRowSpec g := by
  unfold sepaRow sepaRowSpec
  cases hf : g.pages.find? isLOGN17Page with
  | none => rfl
  | some page =>
    have hben : (if g.employeeName.isEmpty then "" else g.employeeName) =
        g.employeeName := by
      by_cases hbe : g.employeeName.isEmpty
      · rw [if_pos hbe, (String.isEmpty_iff _).mp hbe]
      · rw [if_neg hbe]
    simp only [hben, jsOrOpt_empty_default]
    rw [sepaRef_eq g]

def c9salary : ExtractedPage :=
  { samplePage ("LOGN17") 0 (some ("12345")) false with
    iban := some ("DE89370400440532013000"), netto := some ("2100.50") }

def c9group : PersonnelGroup :=
  { personnelNumber := "12345", employeeName := "John Doe", pages := [c9salary]
    dateInfo := { month := some "Oktober", year := some "2025" } }

/-- C9: the SEPA CSV is the header line followed by exactly one quoted row per
group that contains at least one LOGN17 (Salary) page — groups without one are
omitted — with the net amount as `amount`, the literal `EUR` as currency, and
the reference `Gehalt {month} {year} ({personnelNumber})`, falling back to
`Gehalt ({personnelNumber})` when the period is unknown; the John Doe example
produces its specified row. -/
theorem sepa_csv_generation :
    (∀ groups : List PersonnelGroup,
      generateSepaTransfersCsv groups =
        String.intercalate "\n"
          ("beneficiary_name,iban,amount,currency,reference" ::
            groups.filterMap sepaRowSpec)) ∧
    (∀ g : PersonnelGroup, g.pages.find? isLOGN17Page = none → sepaRow g = none) ∧
    generateSepaTransfersCsv [c9group] =
      "beneficiary_name,iban,amount,currency,reference\n\"John Doe\",\"DE89370400440532013000\",\"2100.50\",\"EUR\",\"Gehalt Oktober 2025 (12345)\"" := by
  refine ⟨?_, ?_, by decide⟩
  · intro groups
    unfold generateSepaTransfersCsv
    rw [show sepaRow = sepaRowSpec from funext sepaRow_eq_spec]
  · intro g hf
    unfold sepaRow
    rw [hf]

theorem sepa_csv_generation_witness :
    sepaRow { personnelNumber := "777", employeeName := "No Salary"
              pages := [c2page], dateInfo := { month := none, year := none } } =
      none :=
  sepa_csv_generation.2.1 _ (by decide)
